import Mathlib

set_option maxRecDepth 8000

namespace LeadDev

/-! Shallow embedding of the lead-harvesting core of the repository:
the extractor/scorer (src/scoring.js), the reddit source client
(src/unnamed/part_004), the lead store (src/db.js) and the paged
listing route (src/api/index.js, GET /api/leads). Strings are lists of
characters; timestamps are rational numbers of seconds (the values in
play are small exact numbers, so double rounding plays no role); the
network and the database are passed in explicitly. -/

/-! ### Character classes used by the source's regular expressions -/

/-- White-space class of the JS regex escape for spaces (the members
that can occur in this code base; the repository's texts use plain
spaces). -/
def jsWhitespace (c : Char) : Bool :=
  c = ' ' || c = Char.ofNat 9 || c = Char.ofNat 10 || c = Char.ofNat 11 ||
  c = Char.ofNat 12 || c = Char.ofNat 13 || c = Char.ofNat 160 || c = Char.ofNat 0xfeff

/-- Word character of the JS word-boundary assertion: ASCII letters,
digits, underscore. -/
def wordChar (c : Char) : Bool := c.isAlpha || c.isDigit || c = '_'

/-- Case folding performed by the case-insensitive regex flag (the
inputs here are ASCII). -/
def charCI (a b : Char) : Bool := a.toLower == b.toLower

/-- JS String.prototype.trim : drop white space from both ends. -/
def jsTrimL (s : List Char) : List Char :=
  ((s.dropWhile jsWhitespace).reverse.dropWhile jsWhitespace).reverse

def jsTrim (s : List Char) : String := String.mk (jsTrimL s)

/-! ### A small backtracking regex matcher

The repository uses a handful of fixed regular expressions.  `Pat`
covers exactly the constructs they need: literal runs (case sensitive
or folded), one-character classes, greedy repetition of a class,
alternation, an optional piece, the word-boundary assertion.  The
matcher enumerates the ways a pattern can match a prefix of the input,
most preferred first, which is the JS backtracking order (greedy
repetition, left alternative first, leftmost start position). -/

inductive Pat where
  | lit : List Char → Pat
  | liti : List Char → Pat
  | cls : (Char → Bool) → Pat
  | plusCls : (Char → Bool) → Pat
  | starCls : (Char → Bool) → Pat
  | seq : Pat → Pat → Pat
  | alt : Pat → Pat → Pat
  | opt : Pat → Pat
  | wb : Pat
  | eps : Pat

/-- Match a literal character run; with `ci` the comparison is case
folded.  Successes are (last consumed char, remaining input). -/
def runLit (ci : Bool) : List Char → Option Char → List Char → List (Option Char × List Char)
  | [], prev, s => [(prev, s)]
  | _ :: _, _, [] => []
  | k :: ks, _, c :: rest =>
      if (if ci then charCI k c else k == c) then runLit ci ks (some c) rest else []

/-- Greedy star over a character class: longest match first. -/
def runStarCls (f : Char → Bool) : Option Char → List Char → List (Option Char × List Char)
  | prev, [] => [(prev, [])]
  | prev, c :: rest =>
      if f c then runStarCls f (some c) rest ++ [(prev, c :: rest)] else [(prev, c :: rest)]

/-- The word-boundary assertion holds between `prev` (the character
just before the current position, none at the start) and the head of
the remaining input. -/
def wordBoundary (prev : Option Char) (s : List Char) : Bool :=
  let a := match prev with | none => false | some c => wordChar c
  let b := match s with | [] => false | c :: _ => wordChar c
  a != b

/-- All ways `p` can match a prefix of `s`, most preferred first, as
(last consumed char, remaining input) pairs. -/
def Pat.run : Pat → Option Char → List Char → List (Option Char × List Char)
  | .lit kw, prev, s => runLit false kw prev s
  | .liti kw, prev, s => runLit true kw prev s
  | .cls _, _, [] => []
  | .cls f, _, c :: rest => if f c then [(some c, rest)] else []
  | .plusCls _, _, [] => []
  | .plusCls f, _, c :: rest => if f c then runStarCls f (some c) rest else []
  | .starCls f, prev, s => runStarCls f prev s
  | .seq p q, prev, s => (Pat.run p prev s).flatMap (fun r => Pat.run q r.1 r.2)
  | .alt p q, prev, s => Pat.run p prev s ++ Pat.run q prev s
  | .opt p, prev, s => Pat.run p prev s ++ [(prev, s)]
  | .wb, prev, s => if wordBoundary prev s then [(prev, s)] else []
  | .eps, prev, s => [(prev, s)]

/-- Does `p` match somewhere in `s`?  Mirrors an unanchored `test`
call: try every start position, left to right. -/
def existsMatch (p : Pat) : Option Char → List Char → Bool
  | prev, [] => !(p.run prev []).isEmpty
  | prev, c :: cs => !(p.run prev (c :: cs)).isEmpty || existsMatch p (some c) cs

def testPat (p : Pat) (s : List Char) : Bool := existsMatch p none s

/-- One match attempt at the current position for a pattern of shape
`pre` followed by a capturing group `grp` that extends to the end of
the match: the returned text is what the group consumed, under the
preferred (backtracking-first) overall match. -/
def hitAt (pre grp : Pat) (prev : Option Char) (s : List Char) : Option (List Char) :=
  ((pre.run prev s).flatMap (fun pr =>
    (grp.run pr.1 pr.2).map (fun gr => pr.2.take (pr.2.length - gr.2.length)))).head?

/-- Leftmost match with capture, as JS `String.match` reports group 1
for the capturing patterns of this repository (and the whole match
when `pre` is `eps` and `grp` the whole pattern). -/
def firstGroupMatch (pre grp : Pat) : Option Char → List Char → Option (List Char)
  | prev, [] => hitAt pre grp prev []
  | prev, c :: cs =>
      match hitAt pre grp prev (c :: cs) with
      | some cap => some cap
      | none => firstGroupMatch pre grp (some c) cs

/-! ### The concrete patterns of src/scoring.js and part_004 -/

/-- Line 8 of src/scoring.js: a dollar sign followed by digits, or the
tokens ETH / BTC, case-insensitive. -/
def payPat : Pat :=
  .alt (.seq (.lit ['$']) (.plusCls Char.isDigit))
    (.alt (.liti "ETH".data) (.liti "BTC".data))

/-- Line 9 of src/scoring.js. -/
def urgencyPat : Pat := .alt (.liti "ASAP".data) (.liti "urgent".data)

/-- Line 16 of src/scoring.js: the disqualification words. -/
def disqPat : Pat := .alt (.liti "unpaid".data) (.liti "exposure".data)

/-- The corporate suffix alternation of the company pattern, in source
order. -/
def companySuffix : Pat :=
  .alt (.liti "Inc".data) (.alt (.liti "LLC".data) (.alt (.liti "Corp".data)
    (.alt (.liti "Ltd".data) (.liti "Co".data))))

/-- The interior class of the company pattern: letters, digits, white
space, period, ampersand, apostrophe (code point 39), hyphen. -/
def companyClassChar (c : Char) : Bool :=
  c.isAlpha || c.isDigit || jsWhitespace c || c = '.' || c = '&' ||
  c = Char.ofNat 39 || c = '-'

/-- Line 31 of src/scoring.js, the part before the capturing group:
`at` or `for` (case-insensitive) then white space. -/
def companyPre : Pat := .seq (.alt (.liti "at".data) (.liti "for".data)) (.plusCls jsWhitespace)

/-- Line 31 of src/scoring.js, the capturing group: a letter (the
upper-case class under the case-insensitive flag), the interior class
repeated, a corporate suffix, an optional period.  Note the optional
period sits inside the group. -/
def companyGrp : Pat :=
  .seq (.cls Char.isAlpha)
    (.seq (.plusCls companyClassChar) (.seq companySuffix (.opt (.lit ['.']))))

def companyCapture (c : List Char) : Option (List Char) :=
  firstGroupMatch companyPre companyGrp none c

/-- Line 38 of src/scoring.js: the location vocabulary, in source
order. -/
def locationAlts : Pat :=
  .alt (.liti "remote".data) (.alt (.liti "anywhere".data) (.alt (.liti "US-only".data)
    (.alt (.liti "EU-only".data) (.alt (.liti "worldwide".data) (.alt (.liti "london".data)
    (.alt (.liti "new york".data) (.alt (.liti "san francisco".data)
    (.alt (.liti "berlin".data) (.alt (.liti "toronto".data) (.liti "sydney".data))))))))))

def locationCapture (c : List Char) : Option (List Char) :=
  firstGroupMatch .wb (.seq locationAlts .wb) none c

/-- Line 22 of src/scoring.js, the fixed keyword vocabulary in source
order. -/
def techKeywords : List String :=
  ["React", "Web3", "AI", "Solidity", "Node.js", "Next.js", "Python", "JavaScript",
   "TypeScript", "Go", "Rust", "Java", "C#", "PHP", "Ruby", "Vue", "Angular", "Svelte",
   "Docker", "Kubernetes", "AWS", "Azure", "GCP", "PostgreSQL", "MongoDB", "GraphQL",
   "REST API"]

/-- The JS dot wildcard (anything but a line terminator).  The keyword
is spliced unescaped into the word-bounded pattern, so the period of
Node.js / Next.js is a wildcard, not a literal. -/
def dotAny (c : Char) : Bool :=
  !(c = Char.ofNat 10 || c = Char.ofNat 13 || c = Char.ofNat 0x2028 || c = Char.ofNat 0x2029)

def kwBody : List Char → Pat
  | [] => .eps
  | c :: cs => .seq (if c = '.' then .cls dotAny else .liti [c]) (kwBody cs)

/-- Line 24 of src/scoring.js: the keyword between word boundaries,
case-insensitive. -/
def wordPat (kw : String) : Pat := .seq .wb (.seq (kwBody kw.data) .wb)

/-! ### The scorer (src/scoring.js) -/

structure ScoreResult where
  score : Int
  company : Option String
  location : Option String
  techStack : List String
  deriving DecidableEq, Repr

/-- Lines 11-13 of src/scoring.js: the age in hours, with the falsy
timestamp (absent, or the legitimate epoch value 0) falling back to
the evaluation instant; fresh when strictly under four hours.  `now`
is the single evaluation instant in epoch seconds (the source calls
Date.now twice a microsecond apart; one instant models it). -/
def recencyFresh (created_utc : Option ℚ) (now : ℚ) : Bool :=
  let effective : ℚ := match created_utc with
    | none => now
    | some u => if u = 0 then now else u
  decide ((now - effective) / 3600 < 4)

/-- One step of the keyword loop of lines 23-28: a whole-word
case-insensitive hit records the keyword and adds one. -/
def techFoldStep (c : List Char) (a : List String × Int) (kw : String) : List String × Int :=
  if testPat (wordPat kw) c then (a.1 ++ [kw], a.2 + 1) else a

/-- The keyword loop of lines 23-28.  The source accumulates into a
Set; the vocabulary has no repeated entry and each is tested once, so
insertion-ordered accumulation is the same. -/
def techScan (c : List Char) (acc : List String × Int) : List String × Int :=
  techKeywords.foldl (techFoldStep c) acc

/-- src/scoring.js scorePost, line for line: pay signal (+3), urgency
(+2), recency (+1), then the disqualification early return, then the
keyword loop, company extraction (+1, trimmed group), location
extraction (+1, trimmed group). -/
def scorePost (content : String) (created_utc : Option ℚ) (now : ℚ) : ScoreResult :=
  let c := content.data
  let s0 : Int := 0
  let s1 := if testPat payPat c then s0 + 3 else s0
  let s2 := if testPat urgencyPat c then s1 + 2 else s1
  let s3 := if recencyFresh created_utc now then s2 + 1 else s2
  if testPat disqPat c then
    { score := -999, company := none, location := none, techStack := [] }
  else
    let ts := techScan c ([], s3)
    let cm := match companyCapture c with
      | some cap => ((some (jsTrim cap) : Option String), ts.2 + 1)
      | none => ((none : Option String), ts.2)
    let lm := match locationCapture c with
      | some cap => ((some (jsTrim cap) : Option String), cm.2 + 1)
      | none => ((none : Option String), cm.2)
    { score := lm.2, company := cm.1, location := lm.1, techStack := ts.1 }

/-- scorePost with the recency check abstracted to a Boolean — the
body is otherwise identical, so the two agree definitionally once the
recency check is settled; used to evaluate the scorer on concrete
texts. -/
def scorePostB (content : String) (fresh : Bool) : ScoreResult :=
  let c := content.data
  let s0 : Int := 0
  let s1 := if testPat payPat c then s0 + 3 else s0
  let s2 := if testPat urgencyPat c then s1 + 2 else s1
  let s3 := if fresh then s2 + 1 else s2
  if testPat disqPat c then
    { score := -999, company := none, location := none, techStack := [] }
  else
    let ts := techScan c ([], s3)
    let cm := match companyCapture c with
      | some cap => ((some (jsTrim cap) : Option String), ts.2 + 1)
      | none => ((none : Option String), ts.2)
    let lm := match locationCapture c with
      | some cap => ((some (jsTrim cap) : Option String), cm.2 + 1)
      | none => ((none : Option String), cm.2)
    { score := lm.2, company := cm.1, location := lm.1, techStack := ts.1 }

/-- The signals of scorePost other than recency, for stating how the
recency bonus enters the total. -/
def baseScore (content : String) : Int :=
  let c := content.data
  (if testPat payPat c then 3 else 0) + (if testPat urgencyPat c then 2 else 0) +
  (techScan c ([], 0)).2 +
  (if (companyCapture c).isSome then 1 else 0) +
  (if (locationCapture c).isSome then 1 else 0)

/-- Line 26 of part_004: the budget pattern, a dollar sign, one digit,
then digits or commas (no case flag, no alternatives). -/
def budgetPat : Pat :=
  .seq (.lit ['$']) (.seq (.cls Char.isDigit) (.starCls (fun c => c.isDigit || c = ',')))

/-- Line 26 of part_004: the whole first match of the budget pattern,
or the empty string when there is none (a falsy match result falls
back to the empty string). -/
def budgetStr (content : String) : String :=
  match firstGroupMatch .eps budgetPat none content.data with
  | some cap => String.mk cap
  | none => ""

/-- scorePost as called in JS, where content may be absent.  The three
RegExp test calls coerce an absent value to the string "undefined" and
cannot throw, and "undefined" never contains the disqualification
words, so execution reaches `content.match` on line 31, which throws a
TypeError when content is absent. -/
def scorePostJS (content : Option String) (created_utc : Option ℚ) (now : ℚ) :
    Except String ScoreResult :=
  match content with
  | some s => Except.ok (scorePost s created_utc now)
  | none =>
      if testPat disqPat "undefined".data then
        Except.ok { score := -999, company := none, location := none, techStack := [] }
      else Except.error "TypeError: content.match is not a function on an absent value"

/-! ### The reddit source client (src/unnamed/part_004) -/

/-- A raw listing item, the fields of `c.data` that fetchReddit reads.
Absent JSON fields are `none`. -/
structure RawPost where
  title : Option String
  selftext : Option String
  author : Option String
  permalink : String
  created_utc : Option ℚ
  deriving DecidableEq, Repr

/-- A lead as built by fetchReddit before persistence. -/
structure Lead where
  platform : String
  title : String
  content : String
  author : String
  url : String
  budget : String
  score : Int
  company : Option String
  location : Option String
  techStack : List String
  deriving DecidableEq, Repr

/-- The JS `x || d` idiom on strings: an absent or empty value falls
back to the default. -/
def truthyOr (o : Option String) (d : String) : String :=
  match o with
  | none => d
  | some s => if s = "" then d else s

/-- Line 18 of part_004: `[p.title, p.selftext].filter(Boolean)` joined
with the separator; falsy (absent or empty) parts are dropped. -/
def joinContent (p : RawPost) : String :=
  String.intercalate " — " (([p.title, p.selftext]).filterMap (fun o =>
    match o with
    | none => none
    | some s => if s = "" then none else some s))

/-- Lines 18-33 of part_004: score the combined text and build the lead
exactly when the score is strictly positive. -/
def processPost (now : ℚ) (p : RawPost) : Option Lead :=
  let content := joinContent p
  let r := scorePost content p.created_utc now
  if 0 < r.score then
    some {
      platform := "Reddit"
      title := truthyOr (p.title.map (fun t => String.mk (t.data.take 180))) "Untitled"
      content := truthyOr (p.selftext.map (fun t => String.mk (t.data.take 2000))) ""
      author := truthyOr p.author "unknown"
      url := "https://reddit.com" ++ p.permalink
      budget := budgetStr content
      score := r.score
      company := r.company
      location := r.location
      techStack := r.techStack }
  else none

def jsTrimStr (s : String) : String := jsTrim s.data

/-- JS String.prototype.split with the one-character comma separator:
the empty string splits to one empty field. -/
def splitComma : List Char → List (List Char)
  | [] => [[]]
  | c :: rest =>
      if c = ',' then [] :: splitComma rest
      else
        match splitComma rest with
        | [] => [[c]]
        | h :: t => (c :: h) :: t

/-- Line 7 of part_004: split the comma-separated source list, trim
each entry, drop the empty ones (an absent list behaves as the empty
string). -/
def parseSubs (subsCsv : Option String) : List String :=
  ((splitComma (subsCsv.getD "").data).map (fun cs => jsTrim cs)).filter (fun s => s != "")

/-- The body of the per-subreddit loop of part_004, with the network
abstracted into `fetchO`: for a subreddit it yields the parsed list of
child posts, or `none` when the fetch threw, the response had a
non-success status, or the body failed to parse — in the source all
three paths skip to the next subreddit (continue after the status
check, or the catch block). -/
def fetchStep (fetchO : String → Option (List RawPost)) (now : ℚ)
    (results : List Lead) (sub : String) : List Lead :=
  match fetchO sub with
  | none => results
  | some posts => results ++ posts.filterMap (processPost now)

/-- Lines 6-37 of part_004: iterate the loop body over the configured
sources; results are accumulated source-major in source order. -/
def fetchReddit (fetchO : String → Option (List RawPost)) (subsCsv : Option String)
    (now : ℚ) : List Lead :=
  (parseSubs subsCsv).foldl (fetchStep fetchO now) []

/-! ### The lead store (src/db.js) -/

/-- The column values insertLead binds (author, url, budget may be
absent: the source passes `lead.url ?? null` and the columns are
nullable). -/
structure LeadRowIn where
  platform : String
  title : String
  content : String
  author : Option String
  url : Option String
  budget : Option String
  score : Int
  deriving DecidableEq, Repr

/-- Whether inserting `l` hits the unique (platform, url) constraint:
both backends declare `unique (platform, url)` and both treat rows
whose url is NULL as distinct from every row, so only a present url
can conflict. -/
def keyConflict (t : List LeadRowIn) (l : LeadRowIn) : Bool :=
  match l.url with
  | none => false
  | some u => t.any (fun r => r.platform == l.platform && r.url == some u)

/-- stmt.insertLead: `on conflict (platform, url) do nothing` in the
Postgres path, `unique (platform, url) on conflict ignore` in the
SQLite path.  Returns the table after the call and the driver's
`changes` count (rowCount in pg). -/
def insertIfNew (t : List LeadRowIn) (l : LeadRowIn) : List LeadRowIn × Nat :=
  if keyConflict t l then (t, 0) else (t ++ [l], 1)

/-- Number of stored rows carrying a given (platform, url) pair. -/
def countKey (t : List LeadRowIn) (pf : String) (u : Option String) : Nat :=
  (t.filter (fun r => r.platform == pf && r.url == u)).length

/-! ### The paged listing route (GET /api/leads) -/

/-- A stored lead row as the listing reads it (only the server-assigned
creation timestamp matters to the paging contract). -/
structure StoredLead where
  id : Nat
  created_ts : Int
  deriving DecidableEq, Repr

/-- Newest-first order on stored rows. -/
def newerEq (a b : StoredLead) : Prop := b.created_ts ≤ a.created_ts

instance : DecidableRel newerEq :=
  fun a b => inferInstanceAs (Decidable (b.created_ts ≤ a.created_ts))

instance : IsTotal StoredLead newerEq := ⟨fun a b => le_total b.created_ts a.created_ts⟩

instance : IsTrans StoredLead newerEq := ⟨fun _ _ _ h1 h2 => le_trans h2 h1⟩

/-- stmt.latestLeads: `order by created_ts desc limit ? offset ?`.  The
route only ever passes a non-negative offset; a negative limit reaches
the engine unclamped, and SQLite then applies no upper bound at all. -/
def latestLeads (rows : List StoredLead) (limit offset : Int) : List StoredLead :=
  let sorted := List.insertionSort newerEq rows
  let page := sorted.drop offset.toNat
  if limit < 0 then page else page.take limit.toNat

/-- JS parseInt(s, 10): skip leading white space, an optional sign,
then the longest run of decimal digits; no digit means NaN (`none`
here). -/
def parseIntJS (s : String) : Option Int :=
  let t := s.data.dropWhile jsWhitespace
  let digitsOf : List Char → Option Nat := fun cs =>
    match cs.takeWhile Char.isDigit with
    | [] => none
    | ds => some (ds.foldl (fun n c => n * 10 + (c.toNat - 48)) 0)
  match t with
  | '-' :: rest => (digitsOf rest).map (fun n => -(n : Int))
  | '+' :: rest => (digitsOf rest).map (fun n => (n : Int))
  | rest => (digitsOf rest).map (fun n => (n : Int))

/-- The `req.query.x || d` idiom: an absent or empty query parameter
falls back to the default string. -/
def orDefault (q : Option String) (d : String) : String :=
  match q with
  | none => d
  | some s => if s = "" then d else s

/-- GET /api/leads: limit = min(parseInt(limit or 50), 100), offset =
max(parseInt(offset or 0), 0), then the latestLeads page.  When a
parameter parses to NaN the NaN flows into the storage driver and the
request fails with an error instead of a row list (`none` here). -/
def leadsHandler (qlimit qoffset : Option String) (rows : List StoredLead) :
    Option (List StoredLead) :=
  match parseIntJS (orDefault qlimit "50"), parseIntJS (orDefault qoffset "0") with
  | some l, some o => some (latestLeads rows (min l 100) (max o 0))
  | _, _ => none

/-! ### Claim vocabulary

Independent definitions for the words the claims use ("contains,
in any letter case", "a currency amount: a dollar sign followed by a
digit"), to be bridged to the source's matchers by lemmas. -/

/-- `kw` is a case-folded prefix of `s`. -/
def startsWithCI : List Char → List Char → Bool
  | [], _ => true
  | _ :: _, [] => false
  | k :: ks, c :: cs => charCI k c && startsWithCI ks cs

/-- `s` contains `kw` in any letter case (at some position, case
folded). -/
def containsCI : List Char → List Char → Bool
  | kw, [] => startsWithCI kw []
  | kw, c :: cs => startsWithCI kw (c :: cs) || containsCI kw cs

/-- Some position of `s` holds a dollar sign immediately followed by a
decimal digit — the shape on which the pay pattern's currency
alternative and the budget pattern agree. -/
def hasDollarDigit : List Char → Bool
  | [] => false
  | [_] => false
  | a :: b :: rest => (a == '$' && b.isDigit) || hasDollarDigit (b :: rest)

/-- The head of `s` is a dollar sign immediately followed by a digit. -/
def headDollarDigit : List Char → Bool
  | a :: b :: _ => a == '$' && b.isDigit
  | _ => false

/-! ### Concrete values used by witnesses -/

/-- A lead row whose url is NULL (`lead.url ?? null` in insertLead). -/
def nullUrlRow : LeadRowIn :=
  { platform := "Reddit", title := "t", content := "c",
    author := none, url := none, budget := none, score := 1 }

/-- A lead row with a present url. -/
def urlRow : LeadRowIn :=
  { platform := "Reddit", title := "Need a dev", content := "body",
    author := some "alice", url := some "https://reddit.com/r/x/1",
    budget := some "$100", score := 3 }

/-- A raw post whose combined text scores strictly positively. -/
def postW : RawPost :=
  { title := some "Need React dev", selftext := some "$100 budget urgent",
    author := some "alice", permalink := "/r/x/1", created_utc := some 10 }

/-- A network oracle where source b fails and the others serve `postW`. -/
def fetchW : String → Option (List RawPost) := fun s =>
  if s = "b" then none else some [postW]

/-- The lead fetchReddit builds from `postW` at instant 10. -/
def leadW : Lead :=
  { platform := "Reddit", title := "Need React dev", content := "$100 budget urgent",
    author := "alice", url := "https://reddit.com/r/x/1", budget := "$100",
    score := 7, company := none, location := none, techStack := ["React"] }

/-! ### Matcher lemmas -/

theorem not_isEmpty_append {α : Type} (a b : List α) :
    (!(a ++ b).isEmpty) = (!a.isEmpty || !b.isEmpty) := by
  cases a <;> simp

theorem runLit_ci_isEmpty (kw : List Char) : ∀ (prev : Option Char) (s : List Char),
    (runLit true kw prev s).isEmpty = !startsWithCI kw s := by
  induction kw with
  | nil => intro prev s; simp [runLit, startsWithCI]
  | cons k ks ih =>
    intro prev s
    cases s with
    | nil => simp [runLit, startsWithCI]
    | cons c cs =>
      simp only [runLit, startsWithCI, if_true]
      by_cases h : charCI k c
      · simp [h, ih]
      · simp [h]

theorem existsMatch_liti (kw : List Char) : ∀ (prev : Option Char) (s : List Char),
    existsMatch (.liti kw) prev s = containsCI kw s := by
  intro prev s
  induction s generalizing prev with
  | nil => simp [existsMatch, containsCI, Pat.run, runLit_ci_isEmpty]
  | cons c cs ih => simp [existsMatch, containsCI, Pat.run, runLit_ci_isEmpty, ih]

theorem existsMatch_alt (p q : Pat) : ∀ (prev : Option Char) (s : List Char),
    existsMatch (.alt p q) prev s = (existsMatch p prev s || existsMatch q prev s) := by
  intro prev s
  induction s generalizing prev with
  | nil => simp [existsMatch, Pat.run, not_isEmpty_append]
  | cons c cs ih =>
    simp only [existsMatch, Pat.run, not_isEmpty_append, ih]
    cases (p.run prev (c :: cs)).isEmpty <;> cases (q.run prev (c :: cs)).isEmpty <;>
      cases existsMatch p (some c) cs <;> cases existsMatch q (some c) cs <;> rfl

/-- The disqualification test is exactly case-insensitive containment
of the two words. -/
theorem testPat_disq_eq (s : List Char) :
    testPat disqPat s
      = (containsCI "unpaid".data s || containsCI "exposure".data s) := by
  simp [testPat, disqPat, existsMatch_alt, existsMatch_liti]

theorem runStarCls_ne_nil (f : Char → Bool) : ∀ (prev : Option Char) (s : List Char),
    runStarCls f prev s ≠ [] := by
  intro prev s
  induction s generalizing prev with
  | nil => simp [runStarCls]
  | cons c cs ih =>
    simp only [runStarCls]
    by_cases h : f c
    · simp [h]
    · simp [h]

theorem hasDollarDigit_cons (c : Char) (cs : List Char) :
    hasDollarDigit (c :: cs) = (headDollarDigit (c :: cs) || hasDollarDigit cs) := by
  cases cs <;> simp [hasDollarDigit, headDollarDigit]

theorem run_dollar_isEmpty (prev : Option Char) (s : List Char) :
    ((Pat.seq (.lit ['$']) (.plusCls Char.isDigit)).run prev s).isEmpty
      = !headDollarDigit s := by
  cases s with
  | nil => simp [Pat.run, runLit, headDollarDigit]
  | cons a t =>
    by_cases ha : a = '$'
    · subst ha
      cases t with
      | nil => simp [Pat.run, runLit, headDollarDigit]
      | cons b r =>
        by_cases hb : b.isDigit
        · have hne := runStarCls_ne_nil Char.isDigit (some b) r
          simp [Pat.run, runLit, headDollarDigit, hb, List.isEmpty_iff, hne]
        · simp [Pat.run, runLit, headDollarDigit, hb]
    · have ha2 : ¬ (('$' : Char) == a) = true := by
        simp [beq_iff_eq]; exact fun hx => ha hx.symm
      have ha3 : ¬ (a == ('$' : Char)) = true := by simp [beq_iff_eq, ha]
      cases t with
      | nil => simp [Pat.run, runLit, headDollarDigit, ha2]
      | cons b r => simp [Pat.run, runLit, headDollarDigit, ha2, ha3]

theorem existsMatch_dollar : ∀ (prev : Option Char) (s : List Char),
    existsMatch (.seq (.lit ['$']) (.plusCls Char.isDigit)) prev s = hasDollarDigit s := by
  intro prev s
  induction s generalizing prev with
  | nil => simp [existsMatch, run_dollar_isEmpty, headDollarDigit, hasDollarDigit]
  | cons c cs ih =>
    rw [hasDollarDigit_cons]
    simp [existsMatch, run_dollar_isEmpty, ih]

/-- The pay test is: a dollar sign followed by a digit somewhere, or
case-insensitive containment of ETH or BTC. -/
theorem testPat_pay_eq (s : List Char) :
    testPat payPat s
      = (hasDollarDigit s || (containsCI "ETH".data s || containsCI "BTC".data s)) := by
  simp [testPat, payPat, existsMatch_alt, existsMatch_liti, existsMatch_dollar]

/-! ### Budget pattern lemmas -/

theorem run_budget_isEmpty (prev : Option Char) (s : List Char) :
    (budgetPat.run prev s).isEmpty = !headDollarDigit s := by
  cases s with
  | nil => simp [budgetPat, Pat.run, runLit, headDollarDigit]
  | cons a t =>
    by_cases ha : a = '$'
    · subst ha
      cases t with
      | nil => simp [budgetPat, Pat.run, runLit, headDollarDigit]
      | cons b r =>
        by_cases hb : b.isDigit
        · have hne := runStarCls_ne_nil (fun c => c.isDigit || c = ',') (some b) r
          simp [budgetPat, Pat.run, runLit, headDollarDigit, hb, List.isEmpty_iff, hne]
        · simp [budgetPat, Pat.run, runLit, headDollarDigit, hb]
    · have ha2 : ¬ (('$' : Char) == a) = true := by
        simp [beq_iff_eq]; exact fun hx => ha hx.symm
      have ha3 : ¬ (a == ('$' : Char)) = true := by simp [beq_iff_eq, ha]
      cases t with
      | nil => simp [budgetPat, Pat.run, runLit, headDollarDigit, ha2]
      | cons b r => simp [budgetPat, Pat.run, runLit, headDollarDigit, ha2, ha3]

theorem runStarCls_len (f : Char → Bool) : ∀ (prev : Option Char) (s : List Char),
    ∀ pr ∈ runStarCls f prev s, pr.2.length ≤ s.length := by
  intro prev s
  induction s generalizing prev with
  | nil => intro pr hpr; simp [runStarCls] at hpr; simp [hpr]
  | cons c cs ih =>
    intro pr hpr
    simp only [runStarCls] at hpr
    by_cases h : f c
    · rw [if_pos h] at hpr
      rcases List.mem_append.mp hpr with h1 | h2
      · exact le_trans (ih (some c) pr h1) (Nat.le_succ _)
      · simp at h2; simp [h2]
    · rw [if_neg h] at hpr; simp at hpr; simp [hpr]

theorem run_budget_len (prev : Option Char) (s : List Char) :
    ∀ pr ∈ budgetPat.run prev s, pr.2.length + 2 ≤ s.length := by
  intro pr hpr
  cases s with
  | nil => simp [budgetPat, Pat.run, runLit] at hpr
  | cons a t =>
    by_cases ha : a = '$'
    · subst ha
      cases t with
      | nil =>
        simp [budgetPat, Pat.run, runLit] at hpr
      | cons b r =>
        by_cases hb : b.isDigit
        · simp [budgetPat, Pat.run, runLit, hb] at hpr
          have := runStarCls_len (fun c => c.isDigit || c = ',') (some b) r pr hpr
          simp [List.length_cons]
          omega
        · simp [budgetPat, Pat.run, runLit, hb] at hpr
    · have ha2 : ¬ (('$' : Char) == a) = true := by
        simp [beq_iff_eq]; exact fun hx => ha hx.symm
      simp [budgetPat, Pat.run, runLit, ha2] at hpr

theorem hitAt_eps (grp : Pat) (prev : Option Char) (s : List Char) :
    hitAt .eps grp prev s
      = ((grp.run prev s).map (fun gr => s.take (s.length - gr.2.length))).head? := by
  simp [hitAt, Pat.run]

theorem budget_isSome : ∀ (prev : Option Char) (s : List Char),
    (firstGroupMatch .eps budgetPat prev s).isSome = hasDollarDigit s := by
  intro prev s
  induction s generalizing prev with
  | nil =>
    have hrun := run_budget_isEmpty prev []
    simp only [headDollarDigit, Bool.not_false] at hrun
    have hnil : budgetPat.run prev [] = [] := List.isEmpty_iff.mp hrun
    simp [firstGroupMatch, hitAt_eps, hnil, hasDollarDigit]
  | cons c cs ih =>
    have hrun := run_budget_isEmpty prev (c :: cs)
    rw [hasDollarDigit_cons]
    simp only [firstGroupMatch, hitAt_eps]
    cases hd : headDollarDigit (c :: cs) with
    | true =>
      rw [hd] at hrun
      simp only [Bool.not_true] at hrun
      have hne : budgetPat.run prev (c :: cs) ≠ [] := by
        intro hx; rw [hx] at hrun; simp at hrun
      rcases List.exists_cons_of_ne_nil hne with ⟨x, xs, hx⟩
      rw [hx]
      simp
    | false =>
      rw [hd] at hrun
      simp only [Bool.not_false] at hrun
      have hnil : budgetPat.run prev (c :: cs) = [] := List.isEmpty_iff.mp hrun
      rw [hnil]
      simp [ih]

theorem budget_cap_ne_nil : ∀ (prev : Option Char) (s : List Char) (cap : List Char),
    firstGroupMatch .eps budgetPat prev s = some cap → cap ≠ [] := by
  intro prev s
  induction s generalizing prev with
  | nil =>
    intro cap hcap
    have hrun := run_budget_isEmpty prev []
    simp only [headDollarDigit, Bool.not_false] at hrun
    have hnil : budgetPat.run prev [] = [] := List.isEmpty_iff.mp hrun
    simp [firstGroupMatch, hitAt_eps, hnil] at hcap
  | cons c cs ih =>
    intro cap hcap
    simp only [firstGroupMatch, hitAt_eps] at hcap
    cases hr : budgetPat.run prev (c :: cs) with
    | nil =>
      rw [hr] at hcap
      simp at hcap
      exact ih (some c) cap hcap
    | cons x xs =>
      rw [hr] at hcap
      simp only [List.map_cons, List.head?_cons] at hcap
      have hx : x ∈ budgetPat.run prev (c :: cs) := by rw [hr]; exact List.mem_cons_self x xs
      have hlen := run_budget_len prev (c :: cs) x hx
      have hcap2 : cap = (c :: cs).take ((c :: cs).length - x.2.length) := by
        cases hcap; rfl
      rw [hcap2]
      intro hnil
      rw [List.take_eq_nil_iff] at hnil
      rcases hnil with h1 | h2
      · simp only [List.length_cons] at h1 hlen; omega
      · exact absurd h2 (by simp)

/-- Line 26 of part_004 against the claim vocabulary: the extracted
budget string is non-empty exactly when the text holds a dollar sign
followed by a digit. -/
theorem budgetStr_ne_empty_iff (s : String) :
    (budgetStr s ≠ "") ↔ hasDollarDigit s.data = true := by
  unfold budgetStr
  cases h : firstGroupMatch .eps budgetPat none s.data with
  | none =>
    have hiso := budget_isSome none s.data
    rw [h] at hiso
    simp at hiso
    simp [← hiso]
  | some cap =>
    have hiso := budget_isSome none s.data
    rw [h] at hiso
    simp at hiso
    have hcap := budget_cap_ne_nil none s.data cap h
    simp [← hiso]
    intro hx
    exact hcap (by simpa using congrArg String.data hx)

/-! ### Score decomposition and recency lemmas -/

theorem techFold_shift (c : List Char) (ks : List String) :
    ∀ (l : List String) (n : Int),
    ks.foldl (techFoldStep c) (l, n)
      = (l ++ (ks.foldl (techFoldStep c) ([], 0)).1,
         n + (ks.foldl (techFoldStep c) ([], 0)).2) := by
  induction ks with
  | nil => intro l n; simp
  | cons k ks ih =>
    intro l n
    simp only [List.foldl_cons]
    by_cases h : testPat (wordPat k) c
    · have h1 : techFoldStep c (l, n) k = (l ++ [k], n + 1) := by
        simp [techFoldStep, h]
      have h2 : techFoldStep c ([], 0) k = ([k], (1 : Int)) := by
        simp [techFoldStep, h]
      rw [h1, h2, ih (l ++ [k]) (n + 1), ih [k] 1]
      simp [List.append_assoc]
      ring
    · have h1 : techFoldStep c (l, n) k = (l, n) := by simp [techFoldStep, h]
      have h2 : techFoldStep c ([], 0) k = ([], (0 : Int)) := by simp [techFoldStep, h]
      rw [h1, h2, ih l n]

theorem techScan_shift (c : List Char) (l : List String) (n : Int) :
    techScan c (l, n)
      = (l ++ (techScan c ([], 0)).1, n + (techScan c ([], 0)).2) :=
  techFold_shift c techKeywords l n

/-- For non-disqualified text the total is the non-recency signals plus
the recency bonus. -/
theorem scorePost_score_decomp (content : String) (cr : Option ℚ) (now : ℚ)
    (h : testPat disqPat content.data = false) :
    (scorePost content cr now).score
      = baseScore content + (if recencyFresh cr now then 1 else 0) := by
  unfold scorePost baseScore
  simp only [h, Bool.false_eq_true, if_false]
  rw [techScan_shift]
  cases hc : companyCapture content.data <;> cases hl : locationCapture content.data <;>
    simp only [hc, hl] <;> simp <;> split_ifs <;> ring

/-- The timestamps enter scorePost only through the recency check. -/
theorem scorePost_eq_B (content : String) (cr : Option ℚ) (now : ℚ) :
    scorePost content cr now = scorePostB content (recencyFresh cr now) := rfl

theorem recencyFresh_zero (now : ℚ) : recencyFresh (some 0) now = true := by
  simp only [recencyFresh, if_pos rfl, decide_eq_true_eq, sub_self]
  norm_num

theorem recencyFresh_self (now : ℚ) : recencyFresh (some now) now = true := by
  simp only [recencyFresh, ite_self, decide_eq_true_eq, sub_self]
  norm_num

theorem recencyFresh_future (u now : ℚ) (h : now < u) :
    recencyFresh (some u) now = true := by
  unfold recencyFresh
  by_cases h0 : u = 0
  · simp only [h0, if_pos rfl, decide_eq_true_eq, sub_self]
    norm_num
  · simp only [h0, if_false, decide_eq_true_eq]
    have h1 : now - u < 0 := by linarith
    have h2 : (now - u) / 3600 < 0 := div_neg_of_neg_of_pos h1 (by norm_num)
    linarith

theorem recencyFresh_truthy (u now : ℚ) (h : u ≠ 0) :
    recencyFresh (some u) now = decide ((now - u) / 3600 < 4) := by
  simp [recencyFresh, h]

theorem recencyFresh_stale (u now : ℚ) (h : u ≠ 0) (h2 : 4 ≤ (now - u) / 3600) :
    recencyFresh (some u) now = false := by
  rw [recencyFresh_truthy u now h]
  simp only [decide_eq_false_iff_not, not_lt]
  exact h2

/-! ### Source-client lemmas -/

theorem processPost_isSome (now : ℚ) (p : RawPost) :
    (processPost now p).isSome
      = decide (0 < (scorePost (joinContent p) p.created_utc now).score) := by
  unfold processPost
  by_cases hs : 0 < (scorePost (joinContent p) p.created_utc now).score
  · simp [hs]
  · simp [hs]

theorem processPost_score_pos (now : ℚ) (p : RawPost) (l : Lead)
    (h : processPost now p = some l) : 0 < l.score := by
  unfold processPost at h
  by_cases hs : 0 < (scorePost (joinContent p) p.created_utc now).score
  · rw [if_pos hs] at h
    cases h
    exact hs
  · rw [if_neg hs] at h
    cases h

theorem foldl_fetchStep_pos (fetchO : String → Option (List RawPost)) (now : ℚ) :
    ∀ (subs : List String) (acc : List Lead),
    (∀ x ∈ acc, 0 < x.score) →
    ∀ l ∈ subs.foldl (fetchStep fetchO now) acc, 0 < l.score := by
  intro subs
  induction subs with
  | nil => intro acc hacc l hl; exact hacc l hl
  | cons sub rest ih =>
    intro acc hacc l hl
    rw [List.foldl_cons] at hl
    refine ih (fetchStep fetchO now acc sub) ?_ l hl
    intro x hx
    unfold fetchStep at hx
    cases ho : fetchO sub with
    | none => rw [ho] at hx; exact hacc x hx
    | some posts =>
      rw [ho] at hx
      rcases List.mem_append.mp hx with h1 | h2
      · exact hacc x h1
      · rcases List.mem_filterMap.mp h2 with ⟨p, _, hp⟩
        exact processPost_score_pos now p x hp

theorem foldl_fetchStep_failed (fetchO : String → Option (List RawPost)) (now : ℚ)
    (bad : String) (h : fetchO bad = none) :
    ∀ (subs : List String) (acc : List Lead),
    subs.foldl (fetchStep fetchO now) acc
      = subs.foldl (fetchStep (fun s => if s = bad then some [] else fetchO s) now) acc := by
  intro subs
  induction subs with
  | nil => intro acc; rfl
  | cons sub rest ih =>
    intro acc
    simp only [List.foldl_cons]
    have hstep : fetchStep fetchO now acc sub
        = fetchStep (fun s => if s = bad then some [] else fetchO s) now acc sub := by
      by_cases hb : sub = bad
      · subst hb
        unfold fetchStep
        simp [h]
      · unfold fetchStep
        simp [hb]
    rw [hstep, ih]

/-! ### Store lemmas -/

theorem keyConflict_of_countKey_zero (t : List LeadRowIn) (l : LeadRowIn) (u : String)
    (hu : l.url = some u) (hc : countKey t l.platform l.url = 0) :
    keyConflict t l = false := by
  unfold keyConflict
  rw [hu]
  by_contra hany
  rw [Bool.not_eq_false, List.any_eq_true] at hany
  rcases hany with ⟨r, hr, hpr⟩
  unfold countKey at hc
  rw [List.length_eq_zero, List.filter_eq_nil_iff] at hc
  exact hc r hr (by rw [hu]; exact hpr)

/-! ### Listing lemmas -/

theorem latestLeads_length (rows : List StoredLead) (limit offset : Int)
    (h : 0 ≤ limit) :
    (latestLeads rows limit offset).length ≤ limit.toNat := by
  unfold latestLeads
  rw [if_neg (by omega)]
  simp [List.length_take]

theorem latestLeads_empty (rows : List StoredLead) (limit offset : Int)
    (h : (rows.length : Int) ≤ offset) :
    latestLeads rows limit offset = [] := by
  simp only [latestLeads]
  have hlen : (List.insertionSort newerEq rows).length ≤ offset.toNat := by
    rw [List.length_insertionSort]
    omega
  rw [List.drop_eq_nil_of_le hlen]
  cases h2 : decide (limit < 0) with
  | true => simp [of_decide_eq_true h2]
  | false => simp [of_decide_eq_false h2]

theorem latestLeads_sorted (rows : List StoredLead) (limit offset : Int) :
    (latestLeads rows limit offset).Pairwise newerEq := by
  simp only [latestLeads]
  have hsorted : (List.insertionSort newerEq rows).Pairwise newerEq :=
    List.sorted_insertionSort newerEq rows
  have hdrop : ((List.insertionSort newerEq rows).drop offset.toNat).Pairwise newerEq :=
    hsorted.sublist (List.drop_sublist _ _)
  cases h2 : decide (limit < 0) with
  | true => simpa [of_decide_eq_true h2] using hdrop
  | false =>
    simp only [of_decide_eq_false h2, if_false]
    exact hdrop.sublist (List.take_sublist _ _)

/-! ### The claims -/

/-- Claim C1: every text containing `unpaid` or `exposure` in any
letter case scores -999 with company and location null and an empty
tech stack, no matter which pay, urgency, recency, tech, company or
location signals the text also matches. -/
theorem claim_c1_disqualification (content : String) (created_utc : Option ℚ) (now : ℚ)
    (h : (containsCI "unpaid".data content.data
          || containsCI "exposure".data content.data) = true) :
    scorePost content created_utc now
      = { score := -999, company := none, location := none, techStack := [] } := by
  have hd : testPat disqPat content.data = true := by rw [testPat_disq_eq]; exact h
  unfold scorePost
  simp [hd]

/-- Witness for C1 on a text that also matches pay, urgency, tech,
company and location signals. -/
theorem claim_c1_witness :
    ((containsCI "unpaid".data
        "Unpaid gig, $100 exposure, ASAP React remote at Acme Inc.".data
      || containsCI "exposure".data
        "Unpaid gig, $100 exposure, ASAP React remote at Acme Inc.".data) = true)
    ∧ scorePost "Unpaid gig, $100 exposure, ASAP React remote at Acme Inc." (some 0) 0
        = { score := -999, company := none, location := none, techStack := [] } :=
  ⟨by decide,
   claim_c1_disqualification "Unpaid gig, $100 exposure, ASAP React remote at Acme Inc."
     (some 0) 0 (by decide)⟩

/-- Claim C2 counterexample: for a lead whose url is NULL the unique
(platform, url) pair never conflicts in either backend (SQL treats
NULLs as distinct), so the second identical insert also reports a
change and two stored rows carry the pair — against the claimed
`changes = 0` and single row. -/
theorem claim_c2_counterexample :
    (insertIfNew [] nullUrlRow).2 = 1
    ∧ (insertIfNew (insertIfNew [] nullUrlRow).1 nullUrlRow).2 = 1
    ∧ countKey (insertIfNew (insertIfNew [] nullUrlRow).1 nullUrlRow).1
        nullUrlRow.platform nullUrlRow.url = 2 := by
  refine ⟨by decide, by decide, by decide⟩

/-- Claim C2 (amended): for every lead with a present (non-null) url
and no stored row under its (platform, url) pair, the first insert
reports a change, the second reports none and leaves the table
unchanged (a no-op, not an error), and exactly one stored row carries
the pair afterwards. -/
theorem claim_c2_idempotent (t : List LeadRowIn) (l : LeadRowIn) (u : String)
    (hu : l.url = some u) (hfresh : countKey t l.platform l.url = 0) :
    (insertIfNew t l).2 = 1
    ∧ (insertIfNew (insertIfNew t l).1 l).2 = 0
    ∧ (insertIfNew (insertIfNew t l).1 l).1 = (insertIfNew t l).1
    ∧ countKey (insertIfNew (insertIfNew t l).1 l).1 l.platform l.url = 1 := by
  have hkc := keyConflict_of_countKey_zero t l u hu hfresh
  have h1 : insertIfNew t l = (t ++ [l], 1) := by simp [insertIfNew, hkc]
  have hkc2 : keyConflict (t ++ [l]) l = true := by
    unfold keyConflict
    rw [hu, List.any_eq_true]
    exact ⟨l, by simp, by simp [hu]⟩
  have h2 : insertIfNew (t ++ [l]) l = (t ++ [l], 0) := by simp [insertIfNew, hkc2]
  have hcnt : countKey (t ++ [l]) l.platform l.url = 1 := by
    unfold countKey at hfresh ⊢
    rw [List.filter_append, List.length_append]
    have hself : (List.filter (fun r => r.platform == l.platform && r.url == l.url)
        [l]).length = 1 := by simp
    omega
  refine ⟨?_, ?_, ?_, ?_⟩
  · rw [h1]
  · show (insertIfNew (insertIfNew t l).1 l).2 = 0
    rw [h1]
    show (insertIfNew (t ++ [l]) l).2 = 0
    rw [h2]
  · show (insertIfNew (insertIfNew t l).1 l).1 = (insertIfNew t l).1
    rw [h1]
    show (insertIfNew (t ++ [l]) l).1 = t ++ [l]
    rw [h2]
  · rw [h1]
    show countKey (insertIfNew (t ++ [l]) l).1 l.platform l.url = 1
    rw [h2]
    exact hcnt

/-- Witness for the amended C2 on an empty table and a url-carrying
lead. -/
theorem claim_c2_witness :
    urlRow.url = some "https://reddit.com/r/x/1"
    ∧ countKey [] urlRow.platform urlRow.url = 0
    ∧ ((insertIfNew [] urlRow).2 = 1
       ∧ (insertIfNew (insertIfNew [] urlRow).1 urlRow).2 = 0
       ∧ (insertIfNew (insertIfNew [] urlRow).1 urlRow).1 = (insertIfNew [] urlRow).1
       ∧ countKey (insertIfNew (insertIfNew [] urlRow).1 urlRow).1
           urlRow.platform urlRow.url = 1) :=
  ⟨rfl, rfl, claim_c2_idempotent [] urlRow "https://reddit.com/r/x/1" rfl rfl⟩

/-- Claim C3: when one configured source fails (transport error or
non-success status), the batch result is exactly the result where that
source contributes an empty listing and every other source is
untouched — a single failure never aborts the batch. -/
theorem claim_c3_partial_failure (fetchO : String → Option (List RawPost))
    (bad : String) (subsCsv : Option String) (now : ℚ)
    (h : fetchO bad = none) :
    fetchReddit fetchO subsCsv now
      = fetchReddit (fun s => if s = bad then some [] else fetchO s) subsCsv now := by
  unfold fetchReddit
  exact foldl_fetchStep_failed fetchO now bad h (parseSubs subsCsv) []

/-- Witness for C3: three configured sources with the middle one
failing. -/
theorem claim_c3_witness :
    fetchW "b" = none
    ∧ fetchReddit fetchW (some "a,b,c") 10
        = fetchReddit (fun s => if s = "b" then some [] else fetchW s) (some "a,b,c") 10 :=
  ⟨by decide, claim_c3_partial_failure fetchW "b" (some "a,b,c") 10 (by decide)⟩

/-- Claim C4 counterexample: on the exact scenario text the extracted
company is "Acme Inc." — the pattern's optional trailing period sits
inside capturing group 1, so the period is kept — not "Acme Inc" as
claimed. -/
theorem claim_c4_counterexample :
    (scorePost "Looking for a React dev ASAP, $50/hr, remote, at Acme Inc."
        (some 1000000) 1000000).company = some "Acme Inc."
    ∧ some "Acme Inc." ≠ some "Acme Inc" := by
  constructor
  · rw [scorePost_eq_B, recencyFresh_self]
    decide
  · decide

/-- Claim C4 (amended): the scenario text with created_utc equal to the
evaluation instant scores 9 = 3 (pay) + 2 (urgency) + 1 (recency) + 1
(React) + 1 (company) + 1 (location), with techStack ["React"],
location "remote", and company "Acme Inc." (trailing period
included). -/
theorem claim_c4_endtoend (now : ℚ) :
    scorePost "Looking for a React dev ASAP, $50/hr, remote, at Acme Inc." (some now) now
      = { score := 9, company := some "Acme Inc.", location := some "remote",
          techStack := ["React"] } := by
  rw [scorePost_eq_B, recencyFresh_self]
  decide

/-- Claim C5 (code bug): the scorer is claimed never to raise, with
absent or empty text yielding the neutral result; but with absent
content the call throws a TypeError at the company-extraction match
call (the preceding RegExp tests coerce the absent value to the string
"undefined" and pass), while empty text does yield the neutral result
(score 0 plus the recency bonus only, nothing extracted). -/
theorem claim_c5_absent_text_throws :
    (∀ (cr : Option ℚ) (now : ℚ), scorePostJS none cr now
        = Except.error "TypeError: content.match is not a function on an absent value")
    ∧ scorePostJS (some "") (some 5) 5
        = Except.ok { score := 1, company := none, location := none, techStack := [] } := by
  constructor
  · intro cr now
    have h : testPat disqPat "undefined".data = false := by decide
    simp [scorePostJS, h]
  · simp only [scorePostJS]
    rw [scorePost_eq_B, recencyFresh_self]
    exact congrArg Except.ok (by decide)

/-- Claim C6 counterexample: a post whose created_utc is the epoch
value 0 is far more than four hours old at evaluation instant
1700000000, yet otherwise signal-free text scores 1 — the recency
bonus was granted (the same text with a genuinely old nonzero
timestamp scores 0), against the claim that a post more than four
hours old never receives it. -/
theorem claim_c6_counterexample :
    ((4 : ℚ) < ((1700000000 : ℚ) - 0) / 3600)
    ∧ (scorePost "hello" (some 0) 1700000000).score = 1
    ∧ (scorePost "hello" (some 1000000) 1700000000).score = 0 := by
  refine ⟨by norm_num, ?_, ?_⟩
  · rw [scorePost_eq_B, recencyFresh_zero]
    decide
  · rw [scorePost_eq_B,
      recencyFresh_stale 1000000 1700000000 (by norm_num) (by norm_num)]
    decide

/-- Claim C6 (amended): for a nonzero (truthy) created_utc and
non-disqualified text the recency bonus is granted exactly when the
age at evaluation time is under four hours — in particular always when
created_utc equals the evaluation instant, never when the post is more
than four hours older — while created_utc = 0 is treated as absent and
always receives the bonus (see the counterexample). -/
theorem claim_c6_recency (content : String) (u now : ℚ)
    (hd : testPat disqPat content.data = false) (hu : u ≠ 0) :
    (scorePost content (some u) now).score
      = baseScore content + (if (now - u) / 3600 < 4 then 1 else 0) := by
  rw [scorePost_score_decomp content (some u) now hd, recencyFresh_truthy u now hu]
  by_cases h : (now - u) / 3600 < 4
  · simp [h]
  · simp [h]

/-- Witness for the amended C6 at a half-hour-old post. -/
theorem claim_c6_witness :
    (testPat disqPat "hello".data = false) ∧ ((7200 : ℚ) ≠ 0)
    ∧ (scorePost "hello" (some 7200) 9000).score
        = baseScore "hello" + (if ((9000 : ℚ) - 7200) / 3600 < 4 then 1 else 0) :=
  ⟨by decide, by norm_num,
   claim_c6_recency "hello" 7200 9000 (by decide) (by norm_num)⟩

/-- Claim C7 counterexample: the route only clamps the limit from
above (min with 100), so limit = -1 reaches the engine, which applies
no upper bound and returns the stored row — where the claim allows at
most min(-1, 100) = -1 rows. -/
theorem claim_c7_counterexample :
    leadsHandler (some "-1") none [{ id := 1, created_ts := 100 }]
      = some [{ id := 1, created_ts := 100 }]
    ∧ ¬ ((1 : Int) ≤ min (-1) 100) := by
  refine ⟨by decide, by decide⟩

/-- Claim C7 (amended): whenever the limit parameter parses to a
non-negative integer (50 when absent) and the offset parameter parses,
the listing returns at most min(limit, 100) rows, the offset is
clamped to non-negative, an offset at or past the row count yields the
empty sequence, and rows come back ordered by creation time
descending. -/
theorem claim_c7_paging (qlimit qoffset : Option String) (rows : List StoredLead)
    (l o : Int)
    (hl : parseIntJS (orDefault qlimit "50") = some l) (hl0 : 0 ≤ l)
    (ho : parseIntJS (orDefault qoffset "0") = some o) :
    ∃ out, leadsHandler qlimit qoffset rows = some out
      ∧ (out.length : Int) ≤ min l 100
      ∧ ((rows.length : Int) ≤ o → out = [])
      ∧ out.Pairwise newerEq
      ∧ (qlimit = none → l = 50) := by
  refine ⟨latestLeads rows (min l 100) (max o 0), ?_, ?_, ?_, ?_, ?_⟩
  · simp [leadsHandler, hl, ho]
  · have h1 := latestLeads_length rows (min l 100) (max o 0) (by omega)
    have h2 : ((min l 100).toNat : Int) = min l 100 := Int.toNat_of_nonneg (by omega)
    omega
  · intro hcnt
    exact latestLeads_empty rows (min l 100) (max o 0)
      (le_trans hcnt (le_max_left o 0))
  · exact latestLeads_sorted rows (min l 100) (max o 0)
  · intro hq
    subst hq
    have h50 : parseIntJS (orDefault none "50") = some 50 := by decide
    rw [h50] at hl
    exact (Option.some.inj hl).symm

/-- Witness for the amended C7: limit 7, offset 2, three stored
rows. -/
theorem claim_c7_witness :
    (parseIntJS (orDefault (some "7") "50") = some 7) ∧ ((0 : Int) ≤ 7)
    ∧ (parseIntJS (orDefault (some "2") "0") = some 2)
    ∧ ∃ out, leadsHandler (some "7") (some "2")
          [{ id := 1, created_ts := 100 }, { id := 2, created_ts := 300 }] = some out
        ∧ (out.length : Int) ≤ min 7 100
        ∧ (((2 : Nat) : Int) ≤ 2 → out = [])
        ∧ out.Pairwise newerEq
        ∧ ((some "7" : Option String) = none → (7 : Int) = 50) :=
  ⟨by decide, by norm_num, by decide,
   claim_c7_paging (some "7") (some "2")
     [{ id := 1, created_ts := 100 }, { id := 2, created_ts := 300 }] 7 2
     (by decide) (by norm_num) (by decide)⟩

/-- Claim C8 counterexample: the text "ETH" is awarded the +3 pay
signal (score 4 with a fresh timestamp) but the budget pattern — which
has no ETH/BTC alternative — extracts the empty string, so the two
matchers disagree. -/
theorem claim_c8_counterexample :
    testPat payPat "ETH".data = true
    ∧ budgetStr "ETH" = ""
    ∧ (scorePost "ETH" (some 5) 5).score = 4 := by
  refine ⟨by decide, by decide, ?_⟩
  rw [scorePost_eq_B, recencyFresh_self]
  decide

/-- Claim C8 (amended): the two matchers agree exactly on the dollar
alternative of the pay pattern: the budget string is non-empty
precisely when the text holds a dollar sign followed by a digit, and
every such text passes the pay test; texts awarded the pay signal only
via ETH / BTC yield an empty budget string. -/
theorem claim_c8_budget_agreement (s : String) :
    ((budgetStr s ≠ "") ↔ hasDollarDigit s.data = true)
    ∧ (hasDollarDigit s.data = true → testPat payPat s.data = true) := by
  constructor
  · exact budgetStr_ne_empty_iff s
  · intro h
    rw [testPat_pay_eq]
    simp [h]

/-- Witness for the amended C8 on a dollar-amount text. -/
theorem claim_c8_witness :
    hasDollarDigit "$50".data = true
    ∧ budgetStr "$50" ≠ ""
    ∧ testPat payPat "$50".data = true :=
  ⟨by decide, (claim_c8_budget_agreement "$50").1.mpr (by decide),
   (claim_c8_budget_agreement "$50").2 (by decide)⟩

/-- Claim C9: fetchReddit turns a normalized post into a lead exactly
when its score is strictly positive, and every lead in the returned
batch — all that persistence ever sees — carries a strictly positive
score. -/
theorem claim_c9_positive_filter :
    (∀ (now : ℚ) (p : RawPost),
        (processPost now p).isSome
          = decide (0 < (scorePost (joinContent p) p.created_utc now).score))
    ∧ (∀ (fetchO : String → Option (List RawPost)) (subsCsv : Option String) (now : ℚ)
        (l : Lead), l ∈ fetchReddit fetchO subsCsv now → 0 < l.score) := by
  constructor
  · exact processPost_isSome
  · intro fetchO subsCsv now l hl
    exact foldl_fetchStep_pos fetchO now (parseSubs subsCsv) [] (by simp) l hl

theorem processPost_postW : processPost 10 postW = some leadW := by
  have hcr : postW.created_utc = some 10 := rfl
  simp only [processPost, hcr]
  rw [scorePost_eq_B, recencyFresh_self]
  decide

theorem fetchReddit_postW :
    fetchReddit (fun _ => some [postW]) (some "a") 10 = [leadW] := by
  have hsubs : parseSubs (some "a") = ["a"] := by decide
  unfold fetchReddit
  rw [hsubs]
  simp only [List.foldl_cons, List.foldl_nil]
  show fetchStep (fun _ => some [postW]) 10 [] "a" = [leadW]
  unfold fetchStep
  simp [processPost_postW]

/-- Witness for C9: a concrete harvested lead is in the batch and its
score is strictly positive. -/
theorem claim_c9_witness :
    leadW ∈ fetchReddit (fun _ => some [postW]) (some "a") 10 ∧ 0 < leadW.score :=
  ⟨by rw [fetchReddit_postW]; exact List.mem_singleton.mpr rfl,
   claim_c9_positive_filter.2 (fun _ => some [postW]) (some "a") 10 leadW
     (by rw [fetchReddit_postW]; exact List.mem_singleton.mpr rfl)⟩

/-- Claim C10: created_utc = 0 is falsy, so `created_utc || now` treats
the legitimate epoch value 0 as absent and the age is 0 (always
fresh); a future created_utc gives a negative age, which passes the
`ageHours < 4` test — in both cases the recency check succeeds, and on
non-disqualified text the score is the base plus the +1 bonus. -/
theorem claim_c10_falsy_and_future (content : String) (u now : ℚ) :
    recencyFresh (some 0) now = true
    ∧ (now < u → recencyFresh (some u) now = true)
    ∧ (testPat disqPat content.data = false →
        (scorePost content (some 0) now).score = baseScore content + 1
        ∧ (now < u → (scorePost content (some u) now).score = baseScore content + 1)) := by
  refine ⟨recencyFresh_zero now, fun h => recencyFresh_future u now h,
    fun hd => ⟨?_, fun h => ?_⟩⟩
  · rw [scorePost_score_decomp content (some 0) now hd, recencyFresh_zero]
    simp
  · rw [scorePost_score_decomp content (some u) now hd, recencyFresh_future u now h]
    simp

/-- Witness for C10 at epoch 0 and at a future timestamp. -/
theorem claim_c10_witness :
    ((10 : ℚ) < 20) ∧ (testPat disqPat "hi".data = false)
    ∧ recencyFresh (some 0) 10 = true
    ∧ (scorePost "hi" (some 0) 10).score = baseScore "hi" + 1
    ∧ (scorePost "hi" (some 20) 10).score = baseScore "hi" + 1 :=
  ⟨by norm_num, by decide,
   (claim_c10_falsy_and_future "hi" 20 10).1,
   ((claim_c10_falsy_and_future "hi" 20 10).2.2 (by decide)).1,
   ((claim_c10_falsy_and_future "hi" 20 10).2.2 (by decide)).2 (by norm_num)⟩

end LeadDev
